import Mathlib

/-!
Verification of the blackjack round engine in src/blackjack.py.

The embedding models the pure core: hand valuation (hand_value), natural
blackjack detection (Player.has_blackjack), the deck with draw-with-auto-
reshuffle (Deck.draw), the player and dealer turn loops, settlement
(_settle, _resolve_naturals), and the per-round persistence step
(_persist). Randomness (random.shuffle) is modelled by an explicit
length-preserving shuffle function; interactive input is modelled by
streams of bets/choices; successive deck draws inside a round are
modelled by a stream of cards (justified by the deck invariant that
draws never fail for a nonempty deck composition).
-/

/-- Rank of a card: A, 2..10, J, Q, K (strings in the source). -/
inductive Rank where
  | A | r2 | r3 | r4 | r5 | r6 | r7 | r8 | r9 | r10 | J | Q | K
  deriving DecidableEq, Repr

/-- Suit of a card: the source uses the four symbols in SUITS. -/
inductive Suit where
  | spades | hearts | diamonds | clubs
  deriving DecidableEq, Repr

/-- Card = Tuple[str, str]: an immutable (rank, suit) pair. -/
def Card : Type := Rank × Suit

instance : DecidableEq Card := instDecidableEqProd

/-- SUITS = two characters of each suit, in source order. -/
def SUITS : List Suit := [.spades, .hearts, .diamonds, .clubs]

/-- RANKS = ["A","2",...,"10","J","Q","K"] in source order. -/
def RANKS : List Rank :=
  [.A, .r2, .r3, .r4, .r5, .r6, .r7, .r8, .r9, .r10, .J, .Q, .K]

/-- The test r in ("J","Q","K") of hand_value's first pass. -/
def rankFaceTen (r : Rank) : Bool :=
  match r with
  | .J | .Q | .K => true
  | _ => false

/-- int(r) for the numeric ranks "2".."10" (unused value 0 elsewhere:
the source only reaches int(r) after ruling out faces and the Ace). -/
def numericValue (r : Rank) : Nat :=
  match r with
  | .r2 => 2 | .r3 => 3 | .r4 => 4 | .r5 => 5 | .r6 => 6
  | .r7 => 7 | .r8 => 8 | .r9 => 9 | .r10 => 10
  | _ => 0

/-- First pass of hand_value: the for-loop accumulating (total, aces),
with every Ace counted as 11 and every face card as 10. -/
def firstPass : List Card → Nat × Nat
  | [] => (0, 0)
  | (r, _) :: rest =>
    let p := firstPass rest
    if rankFaceTen r then (p.1 + 10, p.2)
    else if r = Rank.A then (p.1 + 11, p.2 + 1)
    else (p.1 + numericValue r, p.2)

/-- The while-loop of hand_value: while total > 21 and aces:
total -= 10; aces -= 1. Structural recursion on the ace count. -/
def reduceAces (total : Nat) : Nat → Nat
  | 0 => total
  | aces + 1 => if 21 < total then reduceAces (total - 10) aces else total

/-- hand_value(hand) from src/blackjack.py lines 154-168. -/
def hand_value (hand : List Card) : Nat :=
  let p := firstPass hand
  reduceAces p.1 p.2

/-- The low value of a rank: an Ace counted as 1, faces as 10,
numeric ranks at face value (spec-side helper for claims about
hand_value). -/
def rankLow (r : Rank) : Nat :=
  match r with
  | .A => 1
  | .J | .Q | .K => 10
  | _ => numericValue r

/-- Minimum possible hand total: every Ace counted as 1. -/
def lowTotal (hand : List Card) : Nat :=
  (hand.map (fun c => rankLow c.1)).sum

/-- Number of Aces in the hand. -/
def countAces (hand : List Card) : Nat :=
  hand.countP (fun c => c.1 = Rank.A)

/-- Modelled from the spec: the total of a hand under an independent
choice, one Bool per Ace in order (true = count that Ace as 11,
false = count it as 1); non-Ace cards contribute their fixed value. -/
def totalWithChoice : List Card → List Bool → Nat
  | [], _ => 0
  | (Rank.A, _) :: rest, [] => 1 + totalWithChoice rest []
  | (Rank.A, _) :: rest, b :: cs => (if b then 11 else 1) + totalWithChoice rest cs
  | (r, _) :: rest, cs => rankLow r + totalWithChoice rest cs

/-- Index of the greedy reduction's stopping point: the largest k ≤ a
with m + 10k ≤ 21, and 0 when even k = 0 overshoots. -/
def bestK (m : Nat) : Nat → Nat
  | 0 => 0
  | a + 1 => if m + 10 * (a + 1) ≤ 21 then a + 1 else bestK m a

theorem firstPass_eq (hand : List Card) :
    firstPass hand = (lowTotal hand + 10 * countAces hand, countAces hand) := by
  induction hand with
  | nil => rfl
  | cons c rest ih =>
    obtain ⟨r, s⟩ := c
    cases r <;>
      simp [firstPass, lowTotal, countAces, List.countP_cons, rankFaceTen,
        numericValue, rankLow, ih] <;> ring

theorem reduceAces_eq (m : Nat) : ∀ a, reduceAces (m + 10 * a) a = m + 10 * bestK m a := by
  intro a
  induction a with
  | zero => simp [reduceAces, bestK]
  | succ a ih =>
    by_cases h : m + 10 * (a + 1) ≤ 21
    · simp [reduceAces, bestK, h, Nat.not_lt.mpr h]
    · have h' : 21 < m + 10 * (a + 1) := Nat.not_le.mp h
      have hsub : m + 10 * (a + 1) - 10 = m + 10 * a := by omega
      simp [reduceAces, bestK, h, h', hsub, ih]

theorem hand_value_eq (hand : List Card) :
    hand_value hand = lowTotal hand + 10 * bestK (lowTotal hand) (countAces hand) := by
  unfold hand_value
  rw [firstPass_eq]
  exact reduceAces_eq _ _

theorem bestK_le (m : Nat) : ∀ a, bestK m a ≤ a := by
  intro a
  induction a with
  | zero => simp [bestK]
  | succ a ih =>
    by_cases h : m + 10 * (a + 1) ≤ 21
    · simp [bestK, h]
    · simp [bestK, h]
      omega

theorem bestK_le_21 (m : Nat) (hm : m ≤ 21) : ∀ a, m + 10 * bestK m a ≤ 21 := by
  intro a
  induction a with
  | zero => simpa [bestK]
  | succ a ih =>
    by_cases h : m + 10 * (a + 1) ≤ 21
    · simp [bestK, h]
    · simpa [bestK, h] using ih

theorem le_bestK (m : Nat) : ∀ a k, k ≤ a → m + 10 * k ≤ 21 → k ≤ bestK m a := by
  intro a
  induction a with
  | zero => intro k hk _; omega
  | succ a ih =>
    intro k hk hle
    by_cases h : m + 10 * (a + 1) ≤ 21
    · simp [bestK, h]; omega
    · simp [bestK, h]
      exact ih k (by omega) hle

theorem bestK_of_21_lt (m : Nat) (hm : 21 < m) : ∀ a, bestK m a = 0 := by
  intro a
  induction a with
  | zero => rfl
  | succ a ih =>
    have h : ¬ m + 10 * (a + 1) ≤ 21 := by omega
    simp [bestK, h, ih]

theorem totalWithChoice_eq (hand : List Card) :
    ∀ cs : List Bool, cs.length = countAces hand →
      totalWithChoice hand cs = lowTotal hand + 10 * cs.count true := by
  induction hand with
  | nil =>
    intro cs hcs
    have : cs = [] := List.eq_nil_of_length_eq_zero (by simpa [countAces] using hcs)
    simp [this, totalWithChoice, lowTotal]
  | cons c rest ih =>
    intro cs hcs
    obtain ⟨r, s⟩ := c
    by_cases hr : r = Rank.A
    · subst hr
      have hlen : cs.length = countAces rest + 1 := by
        simpa [countAces, List.countP_cons] using hcs
      match cs, hlen with
      | b :: cs', hlen =>
        have hcs' : cs'.length = countAces rest := by simpa using hlen
        cases b <;>
          simp [totalWithChoice, lowTotal, rankLow, List.count_cons, ih cs' hcs'] <;>
          ring
    · have hlen : cs.length = countAces rest := by
        simpa [countAces, List.countP_cons, hr] using hcs
      have hbody : totalWithChoice ((r, s) :: rest) cs
          = rankLow r + totalWithChoice rest cs := by
        cases r <;> simp_all [totalWithChoice]
      rw [hbody, ih cs hlen]
      simp [lowTotal]
      ring

theorem count_true_le_length (cs : List Bool) : cs.count true ≤ cs.length :=
  List.count_le_length true cs

/-- C1: hand_value(hand) equals the maximum total ≤ 21 achievable by
independently choosing each Ace to count as 1 or 11 (faces as 10,
numeric ranks at face value); when no choice of Ace values keeps the
total ≤ 21, it equals the minimum possible total, i.e. the one with
all Aces counted as 1. Stated as: the value is achievable by some
choice; it dominates (and stays ≤ 21 alongside) every choice whose
total is ≤ 21; and when every choice overshoots 21 it equals the
all-Aces-low total. -/
theorem C1_hand_value_best (hand : List Card) :
    (∃ cs : List Bool, cs.length = countAces hand ∧
        totalWithChoice hand cs = hand_value hand) ∧
    (∀ cs : List Bool, cs.length = countAces hand → totalWithChoice hand cs ≤ 21 →
        hand_value hand ≤ 21 ∧ totalWithChoice hand cs ≤ hand_value hand) ∧
    ((∀ cs : List Bool, cs.length = countAces hand → 21 < totalWithChoice hand cs) →
        hand_value hand = totalWithChoice hand (List.replicate (countAces hand) false)) := by
  set m := lowTotal hand with hm
  set a := countAces hand with ha
  refine ⟨?_, ?_, ?_⟩
  · refine ⟨List.replicate (bestK m a) true ++ List.replicate (a - bestK m a) false, ?_, ?_⟩
    · have := bestK_le m a
      simp [List.length_append, List.length_replicate]
      omega
    · rw [totalWithChoice_eq hand _ (by
        have := bestK_le m a
        simp [List.length_append, List.length_replicate, ← ha]
        omega)]
      rw [hand_value_eq]
      have hcount : (List.replicate (bestK m a) true
          ++ List.replicate (a - bestK m a) false).count true = bestK m a := by
        simp [List.count_append, List.count_replicate]
      rw [hcount]
  · intro cs hlen hle
    rw [totalWithChoice_eq hand cs hlen] at hle ⊢
    have hk : cs.count true ≤ a := hlen ▸ count_true_le_length cs
    have hm21 : m ≤ 21 := by omega
    rw [hand_value_eq, ← hm, ← ha]
    constructor
    · exact bestK_le_21 m hm21 a
    · have := le_bestK m a (cs.count true) hk hle
      omega
  · intro hall
    have hrep : (List.replicate a false : List Bool).length = a := by simp
    have := hall (List.replicate a false) (ha ▸ hrep)
    rw [totalWithChoice_eq hand _ (ha ▸ hrep)] at this ⊢
    have hcount : (List.replicate a false : List Bool).count true = 0 := by
      simp [List.count_replicate]
    rw [hcount] at this ⊢
    have hm21 : 21 < m := by omega
    rw [hand_value_eq, ← hm, ← ha, bestK_of_21_lt m hm21 a]

/-- Player from src/blackjack.py lines 134-151: identity, mutable chip
balance (Int; Python ints are unbounded), current hand. -/
structure Player where
  name : String
  chips : Int
  hand : List Card

/-- Player.has_blackjack: len(self.hand) == 2 and self.value == 21,
where self.value = hand_value(self.hand). -/
def Player.has_blackjack (p : Player) : Bool :=
  p.hand.length == 2 && hand_value p.hand == 21

/-- The same test applied directly to a hand (play_round checks it on
both participants' freshly dealt hands). -/
def hasBlackjackHand (hand : List Card) : Bool :=
  hand.length == 2 && hand_value hand == 21

/-- Result strings written by the settlement paths of the source. -/
inductive Result where
  | PUSH | PLAYER_BJ | DEALER_BJ | PLAYER_BUST | DEALER_BUST | WIN | LOSE
  deriving DecidableEq, Repr

/-- Game._settle (src/blackjack.py lines 316-335) as a pure function of
the final player value p, final dealer value d, the bet and the chip
balance: returns the result string and the new balance. -/
def settle (p d : Nat) (bet : Nat) (chips : Int) : Result × Int :=
  if 21 < d then (Result.DEALER_BUST, chips + bet)
  else if d < p then (Result.WIN, chips + bet)
  else if p < d then (Result.LOSE, chips - bet)
  else (Result.PUSH, chips)

/-- Game._resolve_naturals (src/blackjack.py lines 291-308) as a pure
function of the two has_blackjack flags, the bet and the chip balance.
The payout int(bet * 1.5) equals 3*bet/2 rounded down: for a
nonnegative integer bet the product bet * 1.5 is the exact rational
3*bet/2 (exactly representable in double precision throughout the
reachable range) and int() truncates it to floor(3*bet/2). -/
def resolve_naturals (p_bj d_bj : Bool) (bet : Nat) (chips : Int) : Result × Int :=
  if p_bj && d_bj then (Result.PUSH, chips)
  else if p_bj then (Result.PLAYER_BJ, chips + ((3 * bet) / 2 : Nat))
  else (Result.DEALER_BJ, chips - bet)

/-- Deck from src/blackjack.py lines 113-131: the deck composition
count and the current card list. -/
structure Deck where
  num_decks : Nat
  cards : List Card

/-- Deck._create: [(r, s) for _ in range(num_decks) for s in SUITS
for r in RANKS]. -/
def deckFull (num_decks : Nat) : List Card :=
  (List.range num_decks).flatMap fun _ =>
    SUITS.flatMap fun s => RANKS.map fun r => (r, s)

/-- Deck.draw: if the card list is empty, rebuild (_create) and
shuffle, then cards.pop() removes and returns the LAST card. The
random shuffle is an explicit function argument; popping an empty
list raises in Python, modelled by Option. -/
def Deck.draw (shuffle : List Card → List Card) (d : Deck) : Option (Card × Deck) :=
  let cs := if d.cards = [] then shuffle (deckFull d.num_decks) else d.cards
  match cs.getLast? with
  | none => none
  | some c => some (c, ⟨d.num_decks, cs.dropLast⟩)

theorem deckFull_length (n : Nat) : (deckFull n).length = n * 52 := by
  induction n with
  | zero => rfl
  | succ k ih =>
    unfold deckFull at ih ⊢
    rw [List.range_succ, List.flatMap_append, List.length_append, ih]
    have h52 : (([k] : List Nat).flatMap fun _ =>
        SUITS.flatMap fun s => RANKS.map fun r => ((r, s) : Card)).length = 52 := rfl
    rw [h52]
    ring

theorem one_le_rankLow (r : Rank) : 1 ≤ rankLow r := by
  cases r <;> simp [rankLow, numericValue]

theorem lowTotal_append_single (hand : List Card) (c : Card) :
    lowTotal (hand ++ [c]) = lowTotal hand + rankLow c.1 := by
  simp [lowTotal]

theorem lowTotal_le_hand_value (hand : List Card) :
    lowTotal hand ≤ hand_value hand := by
  rw [hand_value_eq]
  omega

/-- The dealer turn of Game.play_round (src/blackjack.py lines
227-230): while self.dealer.value < 17, draw one card. draws k is the
k-th card the deck hands out; the loop terminates because every card
adds at least 1 to the all-Aces-low total, which the value never drops
below. Returns the final dealer hand. -/
def dealerTurn (draws : Nat → Card) (k : Nat) (hand : List Card) : List Card :=
  if hand_value hand < 17 then dealerTurn draws (k + 1) (hand ++ [draws k])
  else hand
termination_by 17 - lowTotal hand
decreasing_by
  have h1 : lowTotal hand ≤ hand_value hand := lowTotal_le_hand_value hand
  have h2 : lowTotal (hand ++ [draws k]) = lowTotal hand + rankLow (draws k).1 :=
    lowTotal_append_single hand (draws k)
  have h3 : 1 ≤ rankLow (draws k).1 := one_le_rankLow _
  omega

/-- The player turn of Game.play_round (src/blackjack.py lines
214-224): repeatedly ask for H(true)/S(false); on H draw one card and
bust out as soon as the value exceeds 21; on S stop. draws k is the
next card the deck hands out, choices j the j-th answer. Returns
(final player hand, busted?, next draw index). -/
def playerTurn (draws : Nat → Card) (choices : Nat → Bool) (k j : Nat)
    (hand : List Card) : List Card × Bool × Nat :=
  if choices j then
    if 21 < hand_value (hand ++ [draws k]) then (hand ++ [draws k], true, k + 1)
    else playerTurn draws choices (k + 1) (j + 1) (hand ++ [draws k])
  else (hand, false, k)
termination_by 22 - lowTotal hand
decreasing_by
  have h1 : lowTotal (hand ++ [draws k]) ≤ hand_value (hand ++ [draws k]) :=
    lowTotal_le_hand_value _
  have h2 : lowTotal (hand ++ [draws k]) = lowTotal hand + rankLow (draws k).1 :=
    lowTotal_append_single hand (draws k)
  have h3 : 1 ≤ rankLow (draws k).1 := one_le_rankLow _
  omega

/-- Game._persist (src/blackjack.py lines 337-357) acting on the
persistent parts of the game state: it always appends one record
(result, chips after) to the in-memory history; when a db is attached
it tries log_round, and a write failure (dbFails) is caught so that
nothing else changes; on success one row is written. It never touches
the chip balance or the hands. -/
def persist (dbPresent dbFails : Bool) (result : Result) (chips : Int)
    (history : List (Result × Int)) (rows : Nat) : List (Result × Int) × Nat :=
  let history' := history ++ [(result, chips)]
  if !dbPresent then (history', rows)
  else if dbFails then (history', rows)
  else (history', rows + 1)

/-- Outcome of one round: result, chip balance after settlement, the
two final hands, the in-memory history after the round's persist, and
the number of db rows written in total. -/
structure RoundOutcome where
  result : Result
  chipsAfter : Int
  playerHand : List Card
  dealerHand : List Card
  history : List (Result × Int)
  rows : Nat

/-- Game.play_round (src/blackjack.py lines 195-234) with inputs made
explicit: draws is the stream of cards the deck hands out (draw order:
player, dealer, player, dealer, then the player turn from index 4,
then the dealer turn), choices the H/S answers, bet the accepted bet,
chips the balance when the round starts, history/rows the persistence
state. Display calls are pure output and are omitted. -/
def play_round (draws : Nat → Card) (choices : Nat → Bool) (bet : Nat)
    (dbPresent dbFails : Bool) (chips : Int)
    (history : List (Result × Int)) (rows : Nat) : RoundOutcome :=
  let pHand := [draws 0, draws 2]
  let dHand := [draws 1, draws 3]
  if hasBlackjackHand pHand || hasBlackjackHand dHand then
    let rc := resolve_naturals (hasBlackjackHand pHand) (hasBlackjackHand dHand) bet chips
    let hr := persist dbPresent dbFails rc.1 rc.2 history rows
    ⟨rc.1, rc.2, pHand, dHand, hr.1, hr.2⟩
  else
    let pt := playerTurn draws choices 4 0 pHand
    if pt.2.1 then
      let chipsB := chips - bet
      let hr := persist dbPresent dbFails Result.PLAYER_BUST chipsB history rows
      ⟨Result.PLAYER_BUST, chipsB, pt.1, dHand, hr.1, hr.2⟩
    else
      let dFinal := dealerTurn draws pt.2.2 dHand
      let rc := settle (hand_value pt.1) (hand_value dFinal) bet chips
      let hr := persist dbPresent dbFails rc.1 rc.2 history rows
      ⟨rc.1, rc.2, pt.1, dFinal, hr.1, hr.2⟩

/-- C2: standard settlement. For every final player value p ≤ 21 and
dealer value d, the comparison table of _settle holds: d > 21 gives
DEALER_BUST with chips increased by bet; otherwise p > d gives WIN
with chips increased by bet, p < d gives LOSE with chips decreased by
bet, p = d gives PUSH with chips unchanged; and the four guard
conditions are exhaustive (they are mutually exclusive by the
trichotomy of the order, as the guards are stated disjointly). -/
theorem C2_settle_table (p d bet : Nat) (chips : Int) (hp : p ≤ 21) :
    (21 < d → settle p d bet chips = (Result.DEALER_BUST, chips + bet)) ∧
    (d ≤ 21 → d < p → settle p d bet chips = (Result.WIN, chips + bet)) ∧
    (d ≤ 21 → p < d → settle p d bet chips = (Result.LOSE, chips - bet)) ∧
    (d ≤ 21 → p = d → settle p d bet chips = (Result.PUSH, chips)) ∧
    (21 < d ∨ (d ≤ 21 ∧ d < p) ∨ (d ≤ 21 ∧ p < d) ∨ (d ≤ 21 ∧ p = d)) := by
  refine ⟨?_, ?_, ?_, ?_, by omega⟩
  · intro h
    simp [settle, h]
  · intro h1 h2
    have hnd : ¬ 21 < d := by omega
    simp [settle, hnd, h2]
  · intro h1 h2
    have hnd : ¬ 21 < d := by omega
    have hnp : ¬ d < p := by omega
    simp [settle, hnd, hnp, h2]
  · intro h1 h2
    have hnd : ¬ 21 < d := by omega
    have hnp : ¬ d < p := by omega
    have hnl : ¬ p < d := by omega
    simp [settle, hnd, hnp, hnl]

/-- C2 witness: p = 18, d = 22, bet = 10, chips = 100 settles as a
dealer bust paying the bet. -/
theorem C2_settle_table_witness : settle 18 22 10 100 = (Result.DEALER_BUST, 110) := by
  have h := (C2_settle_table 18 22 10 100 (by decide)).1 (by decide)
  simpa using h

/-- C3: naturals resolution for every positive bet: both naturals push
with chips unchanged; a player-only natural pays exactly
floor(bet * 1.5) = (3 * bet) / 2 on top of the balance (the bet is
never subtracted); a dealer-only natural subtracts the bet. -/
theorem C3_resolve_naturals_table (bet : Nat) (chips : Int) (hb : 1 ≤ bet) :
    resolve_naturals true true bet chips = (Result.PUSH, chips) ∧
    resolve_naturals true false bet chips
      = (Result.PLAYER_BJ, chips + ((3 * bet) / 2 : Nat)) ∧
    resolve_naturals false true bet chips = (Result.DEALER_BJ, chips - bet) :=
  ⟨rfl, rfl, rfl⟩

/-- C3 witness: bet = 10 pays 15 and bet = 7 pays 10 on a player
natural, matching floor(10 * 1.5) and floor(7 * 1.5). -/
theorem C3_resolve_naturals_witness :
    resolve_naturals true false 10 100 = (Result.PLAYER_BJ, 115) ∧
    resolve_naturals true false 7 100 = (Result.PLAYER_BJ, 110) := by
  constructor
  · have h := (C3_resolve_naturals_table 10 100 (by decide)).2.1
    simpa using h
  · have h := (C3_resolve_naturals_table 7 100 (by decide)).2.1
    simpa using h

/-- C4: Player.has_blackjack is true exactly when the hand has exactly
2 cards and hand_value is 21; in particular it is false for every hand
of more than two cards, even one whose value is 21. -/
theorem C4_has_blackjack_iff (p : Player) :
    (p.has_blackjack = true ↔ p.hand.length = 2 ∧ hand_value p.hand = 21) ∧
    (2 < p.hand.length → p.has_blackjack = false) := by
  constructor
  · simp [Player.has_blackjack]
  · intro h
    simp only [Player.has_blackjack, Bool.and_eq_false_iff]
    left
    simp
    omega

/-- C9: hand_value depends only on the multiset of cards: any
reordering of the hand gives the same total, and the empty hand is
worth 0. -/
theorem C9_hand_value_perm (h1 h2 : List Card) (hp : h1.Perm h2) :
    hand_value h1 = hand_value h2 ∧ hand_value [] = 0 := by
  refine ⟨?_, rfl⟩
  have hlow : lowTotal h1 = lowTotal h2 := (hp.map _).sum_eq
  have hace : countAces h1 = countAces h2 := hp.countP_eq _
  rw [hand_value_eq, hand_value_eq, hlow, hace]

/-- C9 witness: swapping the two cards of an Ace-King hand leaves the
value unchanged. -/
theorem C9_hand_value_perm_witness :
    hand_value [(Rank.A, Suit.spades), (Rank.K, Suit.hearts)]
      = hand_value [(Rank.K, Suit.hearts), (Rank.A, Suit.spades)] :=
  (C9_hand_value_perm _ _ (List.Perm.swap _ _ _)).1

/-- C5 counterexample: the Deck constructor accepts num_decks = 0, and
for that deck state draw does fail — the rebuild produces the empty
composition and cards.pop() raises on it (modelled as none) — so draw
is not failure-free for every deck state. -/
theorem C5_draw_fails_on_zero_decks :
    Deck.draw id { num_decks := 0, cards := [] } = none := rfl

/-- C5 (amended): for every length-preserving shuffle and every deck
backed by at least one 52-card set, draw returns a card; and when the
card list was empty at call time, the deck was rebuilt to the full
composition first, so right after that draw the remaining count is
52 * num_decks - 1. -/
theorem C5_draw_total (shuffle : List Card → List Card)
    (hs : ∀ l, (shuffle l).length = l.length) (d : Deck) (hn : 1 ≤ d.num_decks) :
    ∃ c d', Deck.draw shuffle d = some (c, d') ∧ d'.num_decks = d.num_decks ∧
      (d.cards = [] → d'.cards.length = 52 * d.num_decks - 1) := by
  by_cases hc : d.cards = []
  · have hlen : (shuffle (deckFull d.num_decks)).length = d.num_decks * 52 := by
      rw [hs, deckFull_length]
    have hne : shuffle (deckFull d.num_decks) ≠ [] := by
      intro h
      rw [h] at hlen
      simp at hlen
      omega
    obtain ⟨c, hcl⟩ : ∃ c, (shuffle (deckFull d.num_decks)).getLast? = some c := by
      cases hgl : (shuffle (deckFull d.num_decks)).getLast? with
      | none => exact absurd (List.getLast?_eq_none_iff.mp hgl) hne
      | some c => exact ⟨c, rfl⟩
    refine ⟨c, ⟨d.num_decks, (shuffle (deckFull d.num_decks)).dropLast⟩, ?_, rfl, fun _ => ?_⟩
    · simp only [Deck.draw]
      rw [if_pos hc, hcl]
    · simp only [List.length_dropLast, hlen]
      omega
  · have hnil : d.cards ≠ [] := hc
    obtain ⟨c, hcl⟩ : ∃ c, d.cards.getLast? = some c := by
      cases hgl : d.cards.getLast? with
      | none => exact absurd (List.getLast?_eq_none_iff.mp hgl) hnil
      | some c => exact ⟨c, rfl⟩
    refine ⟨c, ⟨d.num_decks, d.cards.dropLast⟩, ?_, rfl, fun h => absurd h hc⟩
    simp only [Deck.draw]
    rw [if_neg hc, hcl]

/-- C5 witness: drawing from an empty one-deck Deck with the identity
shuffle succeeds and leaves 51 cards. -/
theorem C5_draw_total_witness :
    ∃ c d', Deck.draw id { num_decks := 1, cards := [] } = some (c, d') ∧
      d'.num_decks = 1 ∧
      (({ num_decks := 1, cards := [] } : Deck).cards = []
        → d'.cards.length = 52 * 1 - 1) :=
  C5_draw_total id (fun _ => rfl) { num_decks := 1, cards := [] } (by decide)

/-- C6: the dealer turn draws a card exactly while the dealer hand is
worth less than 17 and stands as soon as the value is at least 17
(soft 17 stands: a hand like A,6,K, worth 17 with the Ace as 1, takes
the stand branch — the fourth conjunct is that concrete scenario);
when the loop ends the dealer value is at least 17. -/
theorem C6_dealer_stands_on_17 (draws : Nat → Card) (k : Nat) (hand : List Card) :
    17 ≤ hand_value (dealerTurn draws k hand) ∧
    (17 ≤ hand_value hand → dealerTurn draws k hand = hand) ∧
    (hand_value hand < 17 →
      dealerTurn draws k hand = dealerTurn draws (k + 1) (hand ++ [draws k])) ∧
    dealerTurn draws k
        [(Rank.A, Suit.spades), (Rank.r6, Suit.diamonds), (Rank.K, Suit.hearts)]
      = [(Rank.A, Suit.spades), (Rank.r6, Suit.diamonds), (Rank.K, Suit.hearts)] := by
  refine ⟨?_, ?_, ?_, ?_⟩
  · induction k, hand using dealerTurn.induct draws with
    | case1 k hand h ih =>
      rw [dealerTurn, if_pos h]
      exact ih
    | case2 k hand h =>
      rw [dealerTurn, if_neg h]
      omega
  · intro h
    rw [dealerTurn, if_neg (Nat.not_lt.mpr h)]
  · intro h
    rw [dealerTurn, if_pos h]
  · have h17 : ¬ hand_value
        [(Rank.A, Suit.spades), (Rank.r6, Suit.diamonds), (Rank.K, Suit.hearts)] < 17 := by
      decide
    rw [dealerTurn, if_neg h17]

theorem playerTurn_bust_value (draws : Nat → Card) (choices : Nat → Bool) :
    ∀ k j hand, (playerTurn draws choices k j hand).2.1 = true →
      21 < hand_value (playerTurn draws choices k j hand).1 := by
  intro k j hand
  induction k, j, hand using playerTurn.induct draws choices with
  | case1 k j hand hch hbust =>
    intro _
    rw [playerTurn, if_pos hch, if_pos hbust]
    exact hbust
  | case2 k j hand hch hno ih =>
    intro h
    rw [playerTurn, if_pos hch, if_neg hno] at h ⊢
    exact ih h
  | case3 k j hand hch =>
    intro h
    rw [playerTurn, if_neg hch] at h
    simp at h

/-- C7: when the opening deal gives neither side a natural and the
player turn ends in a bust (a Hit pushed the hand over 21, which is
exactly when playerTurn reports busted), play_round goes straight to
the bust settlement: result PLAYER_BUST, chips decreased by the bet,
the dealer hand still the two dealt cards (the dealer never draws),
and the final player hand indeed worth more than 21. -/
theorem C7_player_bust (draws : Nat → Card) (choices : Nat → Bool) (bet : Nat)
    (dbPresent dbFails : Bool) (chips : Int)
    (history : List (Result × Int)) (rows : Nat)
    (hnat : (hasBlackjackHand [draws 0, draws 2]
      || hasBlackjackHand [draws 1, draws 3]) = false)
    (hbust : (playerTurn draws choices 4 0 [draws 0, draws 2]).2.1 = true) :
    (play_round draws choices bet dbPresent dbFails chips history rows).result
        = Result.PLAYER_BUST ∧
    (play_round draws choices bet dbPresent dbFails chips history rows).chipsAfter
        = chips - bet ∧
    (play_round draws choices bet dbPresent dbFails chips history rows).dealerHand
        = [draws 1, draws 3] ∧
    21 < hand_value
      (play_round draws choices bet dbPresent dbFails chips history rows).playerHand := by
  have hv := playerTurn_bust_value draws choices 4 0 [draws 0, draws 2] hbust
  refine ⟨?_, ?_, ?_, ?_⟩
  · simp only [play_round, hnat, Bool.false_eq_true, if_false, hbust, if_true]
  · simp only [play_round, hnat, Bool.false_eq_true, if_false, hbust, if_true]
  · simp only [play_round, hnat, Bool.false_eq_true, if_false, hbust, if_true]
  · simp only [play_round, hnat, Bool.false_eq_true, if_false, hbust, if_true]
    exact hv

/-- Concrete card stream for the witnesses: the player is dealt 7 and
5, the dealer 9 and 7 (no naturals), and every further draw is a
King. -/
def exDraws : Nat → Card
  | 0 => (Rank.r7, Suit.spades)
  | 1 => (Rank.r9, Suit.diamonds)
  | 2 => (Rank.r5, Suit.hearts)
  | 3 => (Rank.r7, Suit.clubs)
  | _ => (Rank.K, Suit.spades)

/-- Concrete answer stream: the player always hits. -/
def exChoices : Nat → Bool := fun _ => true

/-- C7 witness: with the concrete streams the player hits 7+5 into a
King for 22 and busts; the round ends at PLAYER_BUST, the bet of 10
leaves 90 chips, and the dealer keeps the two dealt cards. -/
theorem C7_player_bust_witness :
    (play_round exDraws exChoices 10 false false 100 [] 0).result
        = Result.PLAYER_BUST ∧
    (play_round exDraws exChoices 10 false false 100 [] 0).chipsAfter = 100 - 10 ∧
    (play_round exDraws exChoices 10 false false 100 [] 0).dealerHand
        = [exDraws 1, exDraws 3] ∧
    21 < hand_value (play_round exDraws exChoices 10 false false 100 [] 0).playerHand :=
  C7_player_bust exDraws exChoices 10 false false 100 [] 0 (by decide)
    (by rw [playerTurn]; decide)

theorem persist_fst (dbPresent dbFails : Bool) (r : Result) (c : Int)
    (h : List (Result × Int)) (w : Nat) :
    (persist dbPresent dbFails r c h w).1 = h ++ [(r, c)] := by
  unfold persist
  split_ifs <;> rfl

/-- C8: every path through a round — naturals, player bust, standard
settlement — performs exactly one persist attempt: the history gains
exactly the one record of the round outcome (the result and the chips
after settlement). A db write failure (dbFails) does not roll back or
alter anything but the row count: result, chip balance and both hands
are identical whether the write fails or succeeds. -/
theorem C8_persist_once_no_rollback (draws : Nat → Card) (choices : Nat → Bool)
    (bet : Nat) (dbPresent dbFails : Bool) (chips : Int)
    (history : List (Result × Int)) (rows : Nat) :
    ((play_round draws choices bet dbPresent dbFails chips history rows).history
      = history ++
        [((play_round draws choices bet dbPresent dbFails chips history rows).result,
          (play_round draws choices bet dbPresent dbFails chips history rows).chipsAfter)]) ∧
    ((play_round draws choices bet dbPresent true chips history rows).result
      = (play_round draws choices bet dbPresent false chips history rows).result) ∧
    ((play_round draws choices bet dbPresent true chips history rows).chipsAfter
      = (play_round draws choices bet dbPresent false chips history rows).chipsAfter) ∧
    ((play_round draws choices bet dbPresent true chips history rows).playerHand
      = (play_round draws choices bet dbPresent false chips history rows).playerHand) ∧
    ((play_round draws choices bet dbPresent true chips history rows).dealerHand
      = (play_round draws choices bet dbPresent false chips history rows).dealerHand) := by
  refine ⟨?_, ?_, ?_, ?_, ?_⟩ <;>
    · simp only [play_round]
      split_ifs <;> simp [persist_fst]

/-- C10: whatever the cards, the choices and the persistence flags,
one round with a positive accepted bet changes the chip balance by
exactly one of +floor(3*bet/2) (player natural), +bet (win or dealer
bust), 0 (push), or -bet (loss, dealer natural or player bust). -/
theorem C10_chip_delta (draws : Nat → Card) (choices : Nat → Bool) (bet : Nat)
    (dbPresent dbFails : Bool) (chips : Int)
    (history : List (Result × Int)) (rows : Nat) (hb : 1 ≤ bet) :
    (play_round draws choices bet dbPresent dbFails chips history rows).chipsAfter - chips
        = ((3 * bet) / 2 : Nat) ∨
    (play_round draws choices bet dbPresent dbFails chips history rows).chipsAfter - chips
        = (bet : Int) ∨
    (play_round draws choices bet dbPresent dbFails chips history rows).chipsAfter - chips
        = 0 ∨
    (play_round draws choices bet dbPresent dbFails chips history rows).chipsAfter - chips
        = -(bet : Int) := by
  simp only [play_round, resolve_naturals, settle]
  split_ifs <;> simp

/-- C10 witness: the concrete bust round with bet 10 has delta -10. -/
theorem C10_chip_delta_witness :
    (play_round exDraws exChoices 10 false false 100 [] 0).chipsAfter - 100
        = ((3 * 10) / 2 : Nat) ∨
    (play_round exDraws exChoices 10 false false 100 [] 0).chipsAfter - 100
        = ((10 : Nat) : Int) ∨
    (play_round exDraws exChoices 10 false false 100 [] 0).chipsAfter - 100 = 0 ∨
    (play_round exDraws exChoices 10 false false 100 [] 0).chipsAfter - 100
        = -((10 : Nat) : Int) :=
  C10_chip_delta exDraws exChoices 10 false false 100 [] 0 (by decide)
